import Mathlib

/-!
Verification of the in-memory user store HTTP service (src/main.go).

The Go program keeps a global `map[int]User` (`userCache`) guarded by a
`sync.RWMutex` (`cacheMutex`) and exposes three handlers:
`createUser` (POST /users), `getUser` (GET /users/{id}),
`deleteUser` (DELETE /users/{id}).

We embed the shared map as an association list with Go-map semantics
(lookup, overwriting insert, delete, `len`), embed `strconv.Atoi`,
the JSON marshalling of the one-field `User` struct, and each handler
as a pure function from the current cache (and the request data) to an
HTTP response plus the new cache.  The lock usage of each handler is
embedded separately as a trace of atomic lock/map events, in source
order, to settle the locking-discipline claim.
-/

/-- The `User` struct of main.go: a single JSON-tagged `Name` field. -/
structure User where
  name : String
deriving DecidableEq

/-- An HTTP response as the handlers produce it: a status code and a body. -/
structure HttpResponse where
  status : Nat
  body : String
deriving DecidableEq

/-- The shared table `userCache : map[int]User`, embedded as an
association list (Go `int` is embedded as `Int`). -/
abbrev UserCache := List (Int × User)

/-- Go map indexing `userCache[id]`: the value at key `id`, if present. -/
def cacheLookup : UserCache → Int → Option User
  | [], _ => none
  | (k, u) :: rest, id => if k = id then some u else cacheLookup rest id

/-- Go map membership test (`_, ok := userCache[id]`). -/
def cacheHasKey (c : UserCache) (id : Int) : Bool :=
  (cacheLookup c id).isSome

/-- Go `delete(userCache, id)`: removes the binding for `id` if present. -/
def cacheDelete (c : UserCache) (id : Int) : UserCache :=
  c.filter (fun p => p.1 ≠ id)

/-- Go map assignment `userCache[id] = u`: overwrites the binding if the
key is present, otherwise adds it. -/
def cacheInsert (c : UserCache) (id : Int) (u : User) : UserCache :=
  if cacheHasKey c id then
    c.map (fun p => if p.1 = id then (id, u) else p)
  else
    c ++ [(id, u)]

/-- Go `len(userCache)`: the number of entries. -/
def cacheLen (c : UserCache) : Nat := c.length

/-- Value of a decimal digit character, or `none` for a non-digit. -/
def digitVal (ch : Char) : Option Nat :=
  if '0' ≤ ch ∧ ch ≤ '9' then some (ch.toNat - '0'.toNat) else none

/-- Accumulates the value of a decimal digit string; `none` on a non-digit. -/
def digitsValAux : List Char → Nat → Option Nat
  | [], acc => some acc
  | ch :: rest, acc =>
    match digitVal ch with
    | none => none
    | some d => digitsValAux rest (acc * 10 + d)

/-- Value of a non-empty all-digit string, `none` otherwise. -/
def digitsVal : List Char → Option Nat
  | [] => none
  | ds => digitsValAux ds 0

/-- Go `strconv.Atoi` (= `ParseInt(s, 10, 64)` on a 64-bit platform):
an optional sign, then one or more decimal digits, value within the
signed 64-bit range; every other string is an error (`none`). -/
def atoi (s : String) : Option Int :=
  match s.toList with
  | [] => none
  | ch :: rest =>
    let signAndDigits : Bool × List Char :=
      if ch = '-' then (true, rest)
      else if ch = '+' then (false, rest)
      else (false, ch :: rest)
    match digitsVal signAndDigits.2 with
    | none => none
    | some n =>
      let v : Int := if signAndDigits.1 then -(n : Int) else (n : Int)
      if -((2 : Int) ^ 63) ≤ v ∧ v < (2 : Int) ^ 63 then some v else none

/-- One hexadecimal digit character (lower case), as `encoding/json` emits. -/
def hexDigitChar (n : Nat) : Char :=
  if n < 10 then Char.ofNat ('0'.toNat + n) else Char.ofNat ('a'.toNat + (n - 10))

/-- Two lower-case hex digits of a byte value. -/
def byteHex (n : Nat) : String :=
  String.mk [hexDigitChar (n / 16 % 16), hexDigitChar (n % 16)]

/-- How `encoding/json` escapes one character of a Go string value
(default HTML-escaping encoder): `"`, `\`, the control characters and
`<`, `>`, `&`, U+2028, U+2029 are escaped; everything else is copied. -/
def escChar (ch : Char) : String :=
  if ch = '"' then "\\\""
  else if ch = '\\' then "\\\\"
  else if ch = '\n' then "\\n"
  else if ch = '\r' then "\\r"
  else if ch = '\t' then "\\t"
  else if ch.toNat < 0x20 then "\\u00" ++ byteHex ch.toNat
  else if ch = '<' then "\\u003c"
  else if ch = '>' then "\\u003e"
  else if ch = '&' then "\\u0026"
  else if ch.toNat = 0x2028 then "\\u2028"
  else if ch.toNat = 0x2029 then "\\u2029"
  else String.singleton ch

/-- `encoding/json` escaping of a whole string value. -/
def jsonEscape (s : String) : String :=
  String.join (s.toList.map escChar)

/-- Go `json.Marshal(user)` for the `User` struct.  Marshalling a flat
struct whose only field is a string never fails in `encoding/json`
(errors arise only for unsupported types or cyclic values), so this
always returns `some`; the `Option` records that the call site in
`getUser` still checks for an error. -/
def jsonMarshal (u : User) : Option String :=
  some ("\x7b\"name\":\"" ++ jsonEscape u.name ++ "\"\x7d")

/-- Body of the 400 response when `strconv.Atoi` fails
(`err.Error()` at the call sites; the exact text is not load-bearing). -/
def atoiErrMsg (s : String) : String :=
  "strconv.Atoi: parsing \"" ++ s ++ "\": invalid syntax"

/-- The 404 response both `getUser` and `deleteUser` produce. -/
def notFoundResp : HttpResponse :=
  { status := 404, body := "user not found" }

/-- The handler `deleteUser` of main.go, given the current cache and the
raw `{id}` path value.  Returns the response and the cache afterwards. -/
def deleteUser (c : UserCache) (idStr : String) : HttpResponse × UserCache :=
  match atoi idStr with
  | none => ({ status := 400, body := atoiErrMsg idStr }, c)
  | some id =>
    if cacheHasKey c id then
      ({ status := 204, body := "" }, cacheDelete c id)
    else
      (notFoundResp, c)

/-- The handler `getUser` of main.go, given the current cache and the raw
`{id}` path value.  Returns the response and the cache afterwards. -/
def getUser (c : UserCache) (idStr : String) : HttpResponse × UserCache :=
  match atoi idStr with
  | none => ({ status := 400, body := atoiErrMsg idStr }, c)
  | some id =>
    match cacheLookup c id with
    | none => (notFoundResp, c)
    | some user =>
      match jsonMarshal user with
      | none => ({ status := 500, body := "marshal error" }, c)
      | some j => ({ status := 200, body := j }, c)

/-- The handler `createUser` of main.go, given the current cache and the
result of `json.NewDecoder(r.Body).Decode(&user)` (`none` when the body
is malformed, per the spec the transport layer delivers decoded bodies).
On success it stores the record at key `len(userCache)+1`. -/
def createUser (c : UserCache) (decoded : Option User) : HttpResponse × UserCache :=
  match decoded with
  | none => ({ status := 400, body := "decode error" }, c)
  | some user =>
    if user.name = "" then
      ({ status := 400, body := "name is required" }, c)
    else
      ({ status := 204, body := "" }, cacheInsert c ((cacheLen c : Int) + 1) user)

/-- One request to the store, as the handlers receive it. -/
inductive Op where
  | insert (decoded : Option User)
  | get (idStr : String)
  | delete (idStr : String)

/-- The cache after serving one request in state `c`. -/
def step (c : UserCache) : Op → UserCache
  | Op.insert d => (createUser c d).2
  | Op.get s => (getUser c s).2
  | Op.delete s => (deleteUser c s).2

/-- The cache after serving a sequence of requests starting from `c`. -/
def runFrom (c : UserCache) (ops : List Op) : UserCache :=
  ops.foldl step c

/-- The cache after serving a sequence of requests from the empty store
(the state at process start). -/
def run (ops : List Op) : UserCache :=
  runFrom [] ops

/-- Atomic events on the shared state: mutex operations of `cacheMutex`
and accesses to `userCache`. -/
inductive MuEvent where
  | lock
  | unlock
  | rlock
  | runlock
  | mapRead
  | mapWrite
deriving DecidableEq

/-- The `cacheMutex`/`userCache` events of `createUser` on its success
path, in source order (main.go lines 155-159): `Lock`, the read of
`len(userCache)`, the write `userCache[...] = user`, `Unlock`. -/
def createUserEvents : List MuEvent :=
  [MuEvent.lock, MuEvent.mapRead, MuEvent.mapWrite, MuEvent.unlock]

/-- The `cacheMutex`/`userCache` events of `getUser` on the path that
reaches the map (main.go lines 91-95): `RLock`, the read
`userCache[id]`, `RUnlock`. -/
def getUserEvents : List MuEvent :=
  [MuEvent.rlock, MuEvent.mapRead, MuEvent.runlock]

/-- The `cacheMutex`/`userCache` events of `deleteUser` on its success
path, in source order: the existence check `_, ok := userCache[id]`
(main.go line 58) happens BEFORE `cacheMutex.Lock()` (line 67), then
`delete(userCache, id)` (line 69), then `Unlock` (line 70). -/
def deleteUserEvents : List MuEvent :=
  [MuEvent.mapRead, MuEvent.lock, MuEvent.mapWrite, MuEvent.unlock]

/-- Scans an event trace tracking whether the write lock (`w`) or the
read lock (`r`) is held; demands every map read happen under one of the
locks and every map write under the write lock. -/
def accessesGuardedAux : List MuEvent → Bool → Bool → Bool
  | [], _, _ => true
  | MuEvent.lock :: rest, _, r => accessesGuardedAux rest true r
  | MuEvent.unlock :: rest, _, r => accessesGuardedAux rest false r
  | MuEvent.rlock :: rest, w, _ => accessesGuardedAux rest w true
  | MuEvent.runlock :: rest, w, _ => accessesGuardedAux rest w false
  | MuEvent.mapRead :: rest, w, r => (w || r) && accessesGuardedAux rest w r
  | MuEvent.mapWrite :: rest, w, r => w && accessesGuardedAux rest w r

/-- Whether every map access in the trace is under the guard, starting
with no lock held. -/
def accessesGuarded (t : List MuEvent) : Bool :=
  accessesGuardedAux t false false

/-- Every key of the cache is a positive integer. -/
def posKeys (c : UserCache) : Bool :=
  c.all (fun p => 0 < p.1)

/-! ## Helper lemmas about the cache operations -/

theorem posKeys_iff (c : UserCache) : posKeys c = true ↔ ∀ p ∈ c, 0 < p.1 := by
  simp [posKeys, List.all_eq_true]

theorem cacheLookup_map_replace (c : UserCache) (id : Int) (u : User)
    (h : cacheHasKey c id = true) :
    cacheLookup (c.map (fun p => if p.1 = id then (id, u) else p)) id = some u := by
  induction c with
  | nil => simp [cacheHasKey, cacheLookup] at h
  | cons p rest ih =>
    obtain ⟨k, v⟩ := p
    by_cases hk : k = id
    · rw [List.map_cons, if_pos (show ((k, v) : Int × User).1 = id from hk)]
      simp [cacheLookup]
    · rw [List.map_cons, if_neg (show ¬((k, v) : Int × User).1 = id from hk)]
      have h' : cacheHasKey rest id = true := by
        simpa [cacheHasKey, cacheLookup, hk] using h
      simpa [cacheLookup, hk] using ih h'

theorem cacheLookup_append_new (c : UserCache) (id : Int) (u : User)
    (h : cacheLookup c id = none) :
    cacheLookup (c ++ [(id, u)]) id = some u := by
  induction c with
  | nil => simp [cacheLookup]
  | cons p rest ih =>
    obtain ⟨k, v⟩ := p
    by_cases hk : k = id
    · simp [cacheLookup, hk] at h
    · have h' : cacheLookup rest id = none := by
        simpa [cacheLookup, hk] using h
      simpa [cacheLookup, hk] using ih h'

theorem cacheLookup_insert_self (c : UserCache) (id : Int) (u : User) :
    cacheLookup (cacheInsert c id u) id = some u := by
  by_cases h : cacheHasKey c id = true
  · simpa [cacheInsert, h] using cacheLookup_map_replace c id u h
  · have h' : cacheLookup c id = none := by
      cases hx : cacheLookup c id with
      | none => rfl
      | some w => exact absurd (by simp [cacheHasKey, hx]) h
    simpa [cacheInsert, h] using cacheLookup_append_new c id u h'

theorem cacheLookup_delete_self (c : UserCache) (id : Int) :
    cacheLookup (cacheDelete c id) id = none := by
  induction c with
  | nil => rfl
  | cons p rest ih =>
    obtain ⟨k, v⟩ := p
    by_cases hk : k = id
    · simpa [cacheDelete, List.filter, hk] using ih
    · simpa [cacheDelete, List.filter, cacheLookup, hk] using ih

theorem posKeys_of_lookup (c : UserCache) (id : Int) (u : User)
    (hc : posKeys c = true) (h : cacheLookup c id = some u) : 0 < id := by
  rw [posKeys_iff] at hc
  induction c with
  | nil => simp [cacheLookup] at h
  | cons p rest ih =>
    obtain ⟨k, v⟩ := p
    by_cases hk : k = id
    · have hp : 0 < k := hc (k, v) (by simp)
      omega
    · have h' : cacheLookup rest id = some u := by
        simpa [cacheLookup, hk] using h
      exact ih (fun q hq => hc q (List.mem_cons_of_mem _ hq)) h'

theorem cacheLookup_nonpos (c : UserCache) (id : Int)
    (hc : posKeys c = true) (hid : id ≤ 0) : cacheLookup c id = none := by
  cases hx : cacheLookup c id with
  | none => rfl
  | some u => exact absurd (posKeys_of_lookup c id u hc hx) (by omega)

theorem posKeys_insert (c : UserCache) (id : Int) (u : User)
    (hc : posKeys c = true) (hid : 0 < id) : posKeys (cacheInsert c id u) = true := by
  rw [posKeys_iff] at hc ⊢
  by_cases h : cacheHasKey c id = true
  · simp only [cacheInsert, h, if_pos]
    intro p hp
    rcases List.mem_map.1 hp with ⟨q, hq, rfl⟩
    by_cases hk : q.1 = id
    · simpa [hk] using hid
    · simpa [hk] using hc q hq
  · simp only [cacheInsert, h, if_neg, Bool.not_eq_true]
    intro p hp
    rcases List.mem_append.1 hp with hq | hq
    · exact hc p hq
    · have : p = (id, u) := by simpa using hq
      simpa [this] using hid

theorem posKeys_delete (c : UserCache) (id : Int)
    (hc : posKeys c = true) : posKeys (cacheDelete c id) = true := by
  rw [posKeys_iff] at hc ⊢
  intro p hp
  exact hc p (List.mem_of_mem_filter hp)

theorem getUser_state (c : UserCache) (s : String) : (getUser c s).2 = c := by
  unfold getUser
  split
  · rfl
  · split
    · rfl
    · split
      · rfl
      · rfl

theorem posKeys_step (c : UserCache) (op : Op)
    (hc : posKeys c = true) : posKeys (step c op) = true := by
  cases op with
  | insert d =>
    cases d with
    | none => simpa [step, createUser] using hc
    | some u =>
      by_cases hn : u.name = ""
      · simpa [step, createUser, hn] using hc
      · have hpos : (0 : Int) < (cacheLen c : Int) + 1 := by
          have : (0 : Int) ≤ (cacheLen c : Int) := Int.ofNat_nonneg _
          omega
        simpa [step, createUser, hn] using posKeys_insert c _ u hc hpos
  | get s => simpa [step, getUser_state] using hc
  | delete s =>
    show posKeys (deleteUser c s).2 = true
    unfold deleteUser
    split
    · exact hc
    · split
      · exact posKeys_delete c _ hc
      · exact hc

theorem posKeys_runFrom (ops : List Op) :
    ∀ c : UserCache, posKeys c = true → posKeys (runFrom c ops) = true := by
  induction ops with
  | nil => intro c hc; simpa [runFrom] using hc
  | cons op rest ih =>
    intro c hc
    simp only [runFrom, List.foldl_cons]
    exact ih (step c op) (posKeys_step c op hc)

theorem posKeys_run (ops : List Op) : posKeys (run ops) = true :=
  posKeys_runFrom ops [] rfl

/-- The request sequence of the spec's regression scenario: insert A,
insert B, delete id 1, insert C, starting from the empty store. -/
def reuseSeq : List Op :=
  [Op.insert (some { name := "A" }), Op.insert (some { name := "B" }),
   Op.delete "1", Op.insert (some { name := "C" })]

/-! ## Claim theorems -/

/-- Claim C1: the spec demands that ids assigned by Insert be pairwise
distinct and never reused after deletion, with Insert(A) → 1,
Insert(B) → 2, Delete(1), Insert(C) → 3.  The code violates this: it
derives the id from `len(userCache)+1`, so after the deletion the
fourth request is assigned id 2 again (the id Insert(B) already
received), id 3 is never assigned, and the final store maps 2 to C. -/
theorem createUser_reuses_id_after_delete :
    (cacheLen (run (reuseSeq.take 3)) : Int) + 1 = 2 ∧
    run reuseSeq = [(2, { name := "C" })] ∧
    cacheLookup (run reuseSeq) 3 = none ∧
    cacheLookup (run reuseSeq) 2 = some { name := "C" } := by
  decide

/-- Claim C2: the spec demands every read and write of `userCache`
happen under `cacheMutex`.  The traces of lock/map events transcribed
from the source show `createUser` and `getUser` access the map only
with the (write resp. read) lock held, but `deleteUser` performs its
existence check `userCache[id]` (line 58) before calling
`cacheMutex.Lock()` (line 67), an unguarded read. -/
theorem deleteUser_reads_map_outside_guard :
    accessesGuarded createUserEvents = true ∧
    accessesGuarded getUserEvents = true ∧
    accessesGuarded deleteUserEvents = false := by
  decide

/-- Claim C9: there is a sequence of successful operations after which a
successful Insert stores its record at a key already present, silently
replacing the record there and leaving the number of entries unchanged:
after insert A, insert B, delete 1, the store still holds B at key 2,
and the next insert (C) succeeds with 204, overwrites key 2 with C, and
the entry count stays 1. -/
theorem createUser_overwrites_existing_key :
    cacheLookup (run (reuseSeq.take 3)) 2 = some { name := "B" } ∧
    (createUser (run (reuseSeq.take 3)) (some { name := "C" })).1.status = 204 ∧
    cacheLookup (createUser (run (reuseSeq.take 3)) (some { name := "C" })).2 2
      = some { name := "C" } ∧
    cacheLen (createUser (run (reuseSeq.take 3)) (some { name := "C" })).2
      = cacheLen (run (reuseSeq.take 3)) := by
  decide

/-- Claim C3: for every store state and every record with a non-empty
name, Insert succeeds (204), the id it assigns (`len(userCache)+1`) maps
to the inserted record, and a Get whose path id parses to that assigned
id returns 200 with exactly that record's JSON marshalling. -/
theorem insert_then_get_returns_inserted (c : UserCache) (u : User) (s : String)
    (hname : u.name ≠ "")
    (hs : atoi s = some ((cacheLen c : Int) + 1)) :
    (createUser c (some u)).1.status = 204 ∧
    cacheLookup (createUser c (some u)).2 ((cacheLen c : Int) + 1) = some u ∧
    (getUser (createUser c (some u)).2 s).1.status = 200 ∧
    jsonMarshal u = some ((getUser (createUser c (some u)).2 s).1.body) := by
  have hkey : cacheLookup (createUser c (some u)).2 ((cacheLen c : Int) + 1) = some u := by
    simpa [createUser, hname] using
      cacheLookup_insert_self c ((cacheLen c : Int) + 1) u
  refine ⟨by simp [createUser, hname], hkey, ?_, ?_⟩
  · simp [getUser, hs, hkey, jsonMarshal]
  · simp [getUser, hs, hkey, jsonMarshal]

/-- Witness for C3 at the empty store, the record Alice and the path
value 1. -/
theorem insert_then_get_returns_inserted_witness :
    ({ name := "Alice" } : User).name ≠ "" ∧
    atoi "1" = some ((cacheLen ([] : UserCache) : Int) + 1) ∧
    (createUser [] (some { name := "Alice" })).1.status = 204 ∧
    cacheLookup (createUser [] (some { name := "Alice" })).2
      ((cacheLen ([] : UserCache) : Int) + 1) = some { name := "Alice" } := by
  refine ⟨by decide, by decide, ?_⟩
  have h := insert_then_get_returns_inserted [] { name := "Alice" } "1"
    (by decide) (by decide)
  exact ⟨h.1, h.2.1⟩

/-- Claim C4: for every path value parsing to an id, (a) if the id is
absent from the mapping, Get returns 404 and Delete returns 404, both
leaving the mapping unchanged; and (b) a Get straight after a Delete of
the same path value returns 404, whether or not the id was present. -/
theorem absent_id_not_found (s : String) (id : Int)
    (hs : atoi s = some id) :
    (∀ c : UserCache, cacheLookup c id = none →
      getUser c s = (notFoundResp, c) ∧ deleteUser c s = (notFoundResp, c)) ∧
    (∀ c : UserCache, (getUser (deleteUser c s).2 s).1 = notFoundResp) := by
  constructor
  · intro c habs
    constructor
    · simp [getUser, hs, habs]
    · simp [deleteUser, hs, cacheHasKey, habs]
  · intro c
    by_cases h : cacheHasKey c id = true
    · have hst : (deleteUser c s).2 = cacheDelete c id := by
        simp [deleteUser, hs, h]
      rw [hst]
      simp [getUser, hs, cacheLookup_delete_self]
    · have hnone : cacheLookup c id = none := by
        cases hx : cacheLookup c id with
        | none => rfl
        | some u => exact absurd (by simp [cacheHasKey, hx]) h
      have hst : (deleteUser c s).2 = c := by
        simp [deleteUser, hs, h]
      rw [hst]
      simp [getUser, hs, hnone]

/-- Witness for C4 at path value 7: absent from the empty store, and a
delete-then-get on a store holding id 1. -/
theorem absent_id_not_found_witness :
    atoi "7" = some 7 ∧
    cacheLookup ([] : UserCache) 7 = none ∧
    getUser [] "7" = (notFoundResp, []) ∧
    (getUser (deleteUser [(1, { name := "Alice" })] "7").2 "7").1 = notFoundResp := by
  refine ⟨by decide, by decide, ?_, ?_⟩
  · exact ((absent_id_not_found "7" 7 (by decide)).1 [] (by decide)).1
  · exact (absent_id_not_found "7" 7 (by decide)).2 [(1, { name := "Alice" })]

/-- Claim C5: for every store state, Insert with an empty name is
rejected with 400 ("name is required") and the mapping is unchanged. -/
theorem empty_name_rejected (c : UserCache) (u : User) (h : u.name = "") :
    createUser c (some u) = ({ status := 400, body := "name is required" }, c) := by
  simp [createUser, h]

/-- Witness for C5 at the empty store and the empty-name record. -/
theorem empty_name_rejected_witness :
    ({ name := "" } : User).name = "" ∧
    createUser [] (some { name := "" })
      = ({ status := 400, body := "name is required" }, ([] : UserCache)) :=
  ⟨rfl, empty_name_rejected [] { name := "" } rfl⟩

/-- Claim C6: the core operations never produce a 500: `createUser` and
`deleteUser` have no 500 branch reachable on any input, marshalling a
`User` (a single string name) never fails, and therefore Get on a
present id always returns 200 with the record's JSON. -/
theorem no_internal_error_in_core :
    (∀ (c : UserCache) (d : Option User), (createUser c d).1.status ≠ 500) ∧
    (∀ (c : UserCache) (s : String), (deleteUser c s).1.status ≠ 500) ∧
    (∀ u : User, jsonMarshal u ≠ none) ∧
    (∀ (c : UserCache) (s : String) (id : Int) (u : User),
      atoi s = some id → cacheLookup c id = some u →
      (getUser c s).1.status = 200 ∧
      jsonMarshal u = some ((getUser c s).1.body)) := by
  refine ⟨?_, ?_, ?_, ?_⟩
  · intro c d
    cases d with
    | none => simp [createUser]
    | some u =>
      by_cases h : u.name = "" <;> simp [createUser, h]
  · intro c s
    unfold deleteUser
    split
    · simp
    · split
      · simp
      · simp [notFoundResp]
  · intro u
    simp [jsonMarshal]
  · intro c s id u hs hu
    constructor
    · simp [getUser, hs, hu, jsonMarshal]
    · simp [getUser, hs, hu, jsonMarshal]

/-- Witness for C6 on a store holding Alice at id 1 and path value 1. -/
theorem no_internal_error_in_core_witness :
    atoi "1" = some 1 ∧
    cacheLookup [(1, { name := "Alice" })] 1 = some { name := "Alice" } ∧
    (getUser [(1, { name := "Alice" })] "1").1.status = 200 := by
  refine ⟨by decide, by decide, ?_⟩
  exact (no_internal_error_in_core.2.2.2 [(1, { name := "Alice" })] "1" 1
    { name := "Alice" } (by decide) (by decide)).1

/-- Claim C7: every id present in the mapping is positive; the property
is preserved by every single operation and holds in every state
reachable from the empty store, so any successful lookup is at a
positive id. -/
theorem reachable_keys_positive :
    (∀ (c : UserCache) (op : Op), posKeys c = true → posKeys (step c op) = true) ∧
    (∀ ops : List Op, posKeys (run ops) = true) ∧
    (∀ (ops : List Op) (id : Int) (u : User),
      cacheLookup (run ops) id = some u → 0 < id) := by
  refine ⟨posKeys_step, posKeys_run, ?_⟩
  intro ops id u h
  exact posKeys_of_lookup (run ops) id u (posKeys_run ops) h

/-- Witness for C7: after a single insert of Alice, the lookup that
succeeds is at id 1, which is positive. -/
theorem reachable_keys_positive_witness :
    cacheLookup (run [Op.insert (some { name := "Alice" })]) 1 = some { name := "Alice" } ∧
    (0 : Int) < 1 := by
  refine ⟨by decide, ?_⟩
  exact reachable_keys_positive.2.2 [Op.insert (some { name := "Alice" })] 1
    { name := "Alice" } (by decide)

/-- Claim C8: for every store state and every path value that does not
parse as an integer, Get and Delete both return 400 (the parse error)
and leave the mapping untouched. -/
theorem malformed_id_rejected (c : UserCache) (s : String) (h : atoi s = none) :
    getUser c s = ({ status := 400, body := atoiErrMsg s }, c) ∧
    deleteUser c s = ({ status := 400, body := atoiErrMsg s }, c) := by
  constructor
  · simp [getUser, h]
  · simp [deleteUser, h]

/-- Witness for C8 at the non-numeric path value abc. -/
theorem malformed_id_rejected_witness :
    atoi "abc" = none ∧
    getUser [] "abc" = ({ status := 400, body := atoiErrMsg "abc" }, ([] : UserCache)) ∧
    deleteUser [] "abc" = ({ status := 400, body := atoiErrMsg "abc" }, ([] : UserCache)) := by
  refine ⟨by decide, ?_, ?_⟩
  · exact (malformed_id_rejected [] "abc" (by decide)).1
  · exact (malformed_id_rejected [] "abc" (by decide)).2

/-- Claim C10: a path value parsing to an id that is zero or negative is
not rejected as malformed; in every state reachable from the empty
store, both Get and Delete return 404 on it and leave the state
unchanged, because the store only ever holds positive keys. -/
theorem nonpositive_id_not_found (ops : List Op) (s : String) (id : Int)
    (hs : atoi s = some id) (hid : id ≤ 0) :
    getUser (run ops) s = (notFoundResp, run ops) ∧
    deleteUser (run ops) s = (notFoundResp, run ops) := by
  have hnone : cacheLookup (run ops) id = none :=
    cacheLookup_nonpos (run ops) id (posKeys_run ops) hid
  constructor
  · simp [getUser, hs, hnone]
  · simp [deleteUser, hs, cacheHasKey, hnone]

/-- Witness for C10 at path value 0 after one insert: the id parses
(no 400) and both handlers answer 404. -/
theorem nonpositive_id_not_found_witness :
    atoi "0" = some 0 ∧ (0 : Int) ≤ 0 ∧
    getUser (run [Op.insert (some { name := "Alice" })]) "0"
      = (notFoundResp, run [Op.insert (some { name := "Alice" })]) ∧
    deleteUser (run [Op.insert (some { name := "Alice" })]) "0"
      = (notFoundResp, run [Op.insert (some { name := "Alice" })]) := by
  refine ⟨by decide, by decide, ?_, ?_⟩
  · exact (nonpositive_id_not_found [Op.insert (some { name := "Alice" })] "0" 0
      (by decide) (by decide)).1
  · exact (nonpositive_id_not_found [Op.insert (some { name := "Alice" })] "0" 0
      (by decide) (by decide)).2
